import Mathlib

/-!
Shallow embedding of the YATB backup tool (src/backup.py, src/scheduler.py)
and proofs about its queue, local backup engine, SSH runner and scheduler.
-/

set_option maxRecDepth 8000

namespace YATB

/-! ## Queue model (src/backup.py, class BackupQueue) -/

/-- One pending job, as appended by `BackupQueue.enqueue`
(`{"profile_id": ..., "triggered_by": ...}`). -/
structure QueueItem where
  profile_id : Nat
  triggered_by : String
deriving DecidableEq, Repr

/-- The queue's shared mutable state: the FIFO list `_queue` and the set
`_running_profiles`.  All Python accesses happen under one lock, so the
state transitions are modelled as pure functions. -/
structure QState where
  queue : List QueueItem
  running : Finset Nat
deriving DecidableEq

/-- `BackupQueue.enqueue` (src/backup.py lines 32-40): reject if the id is
running or already queued, otherwise append one item at the tail. -/
def enqueue (s : QState) (pid : Nat) (trig : String) : Bool × QState :=
  if pid ∈ s.running then (false, s)
  else if s.queue.any (fun item => item.profile_id == pid) then (false, s)
  else (true, { s with queue := s.queue ++ [⟨pid, trig⟩] })

/-- First half of one `_worker_loop` iteration (src/backup.py lines 49-56):
pop the queue head and move its id into the running set.  `none` when the
queue is empty (the Python worker blocks on the condition variable). -/
def workerDispatch (s : QState) : Option (QueueItem × QState) :=
  match s.queue with
  | [] => none
  | item :: rest =>
      some (item, { queue := rest, running := insert item.profile_id s.running })

/-- Cleanup half of the worker iteration (src/backup.py lines 59-61):
`self._running_profiles.discard(profile_id)` in the `finally` block. -/
def workerComplete (pid : Nat) (s : QState) : QState :=
  { s with running := s.running.erase pid }

/-- How many times `pid` occurs across the queue plus the running set. -/
def occurrences (s : QState) (pid : Nat) : Nat :=
  s.queue.countP (fun item => item.profile_id == pid) +
    (if pid ∈ s.running then 1 else 0)

/-- Single-flight invariant: each profile id occurs at most once across the
queue plus the running set. -/
def SingleFlight (s : QState) : Prop :=
  ∀ pid, occurrences s pid ≤ 1

/-! ## run_backup dispatch (src/backup.py lines 64-82)

`run_backup` first fetches the profile; a missing profile returns before any
Run record is created.  The database is abstracted as the lookup function
`getProfile`, and the local engine outcome as `outcome` (it is modelled in
full further below); the persisted writes are recorded as effects. -/

/-- Persistence effects of one `run_backup` call. -/
inductive DbEffect where
  | createRun (pid : Nat) (trig : String)
  | finishRun (status : String) (message : String)
deriving DecidableEq, Repr

/-- `run_backup(profile_id, triggered_by)`: on a missing profile return with
no effect; otherwise create the Run, execute the engine, and finish the Run
with the engine's `(status, message)`. -/
def run_backup (getProfile : Nat → Option Unit)
    (outcome : Unit → String × String) (pid : Nat) (trig : String) :
    List DbEffect :=
  match getProfile pid with
  | none => []
  | some p =>
      [DbEffect.createRun pid trig,
       DbEffect.finishRun (outcome p).1 (outcome p).2]

/-! ## fnmatch glob matching (Python `fnmatch` module, used by
`_should_exclude`)

`fnmatch.fnmatch(name, pat)` normcases both arguments (the identity on
POSIX) and matches `fnmatch.translate(pat)` against the whole name:
`*` matches any character run (including `/`), `?` one character, and
`[...]` a character class (leading `!` negates, a first `]` is literal, an
unterminated `[` is a literal bracket, `a-b` is a range). -/

/-- One token of a translated pattern. -/
inductive GlobTok where
  | star
  | anyChar
  | lit (c : Char)
  | charClass (neg : Bool) (items : List (Char × Char))
deriving DecidableEq, Repr

/-- Items of a `[...]` body: `a-b` is a range, other characters stand for
themselves (a `-` at either end is literal). -/
def classItems : List Char → List (Char × Char)
  | a :: '-' :: b :: rest => (a, b) :: classItems rest
  | a :: rest => (a, a) :: classItems rest
  | [] => []

/-- Tokenizer for a pattern, following `fnmatch.translate`; the fuel is an
upper bound on the number of tokens (one token consumes at least one
character). -/
def globTokensAux : Nat → List Char → List GlobTok
  | 0, _ => []
  | _, [] => []
  | fuel + 1, '*' :: rest => GlobTok.star :: globTokensAux fuel rest
  | fuel + 1, '?' :: rest => GlobTok.anyChar :: globTokensAux fuel rest
  | fuel + 1, '[' :: rest =>
      let negBody : Bool × List Char :=
        match rest with
        | '!' :: t => (true, t)
        | t => (false, t)
      let contentAfter : List Char × List Char :=
        match negBody.2 with
        | ']' :: t =>
            (']' :: (t.takeWhile (fun c => c != ']')),
             t.dropWhile (fun c => c != ']'))
        | t => (t.takeWhile (fun c => c != ']'), t.dropWhile (fun c => c != ']'))
      match contentAfter.2 with
      | ']' :: t =>
          GlobTok.charClass negBody.1 (classItems contentAfter.1) ::
            globTokensAux fuel t
      | _ => GlobTok.lit '[' :: globTokensAux fuel rest
  | fuel + 1, c :: rest => GlobTok.lit c :: globTokensAux fuel rest

def globTokens (pat : String) : List GlobTok :=
  globTokensAux pat.length pat.toList

/-- Does character `c` satisfy a (possibly negated) class? -/
def inClass (neg : Bool) (items : List (Char × Char)) (c : Char) : Bool :=
  let hit := items.any (fun p => decide (p.1 ≤ c) && decide (c ≤ p.2))
  if neg then !hit else hit

/-- Full match of a token list against a character list (the
`re.fullmatch` of the translated pattern).  Every recursive call consumes
a token or a character, so the fuel below never runs out. -/
def globMatchAux : Nat → List GlobTok → List Char → Bool
  | 0, _, _ => false
  | fuel + 1, ts, s =>
      match ts, s with
      | [], [] => true
      | [], _ :: _ => false
      | GlobTok.star :: ts', s =>
          globMatchAux fuel ts' s ||
            (match s with
             | [] => false
             | _ :: s' => globMatchAux fuel (GlobTok.star :: ts') s')
      | GlobTok.anyChar :: ts', _ :: s' => globMatchAux fuel ts' s'
      | GlobTok.anyChar :: _, [] => false
      | GlobTok.lit a :: ts', c :: s' => a == c && globMatchAux fuel ts' s'
      | GlobTok.lit _ :: _, [] => false
      | GlobTok.charClass neg items :: ts', c :: s' =>
          inClass neg items c && globMatchAux fuel ts' s'
      | GlobTok.charClass _ _ :: _, [] => false

def globMatch (ts : List GlobTok) (s : List Char) : Bool :=
  globMatchAux (ts.length + s.length + 1) ts s

/-- `fnmatch.fnmatch(name, pattern)` on a POSIX system. -/
def fnmatchB (name pat : String) : Bool :=
  globMatch (globTokens pat) name.toList

/-! ## Exclusion predicate and the copy walk
(src/backup.py, `_should_exclude` and `run_profile_backup`) -/

/-- Join relative-path components with `/`, as `os.path.join` does for the
relative paths the walk produces. -/
def joinPath : List String → String
  | [] => ""
  | [p] => p
  | p :: rest => p ++ "/" ++ joinPath rest

/-- `Path(path).name`: the last `/`-separated component. -/
def baseName (path : String) : String :=
  String.mk (path.data.foldl (fun acc c => if c = '/' then [] else acc ++ [c]) [])

/-- `_should_exclude` (src/backup.py lines 166-172): an empty relative path
(the source root) is never excluded; otherwise some pattern must glob-match
the full relative path or its base name. -/
def shouldExclude (path : String) (patterns : List String) : Bool :=
  if path = "" then false
  else patterns.any (fun pat => fnmatchB path pat || fnmatchB (baseName path) pat)

/-- The contents of one directory, in directory-listing order: a sequence
of named file entries (with byte content) and named subdirectory entries
(with their own contents). -/
inductive Entries where
  | nil : Entries
  | fileEntry (name : String) (content : List Nat) (rest : Entries) : Entries
  | dirEntry (name : String) (children : Entries) (rest : Entries) : Entries
deriving DecidableEq

/-- Filesystem effects of one local backup run. -/
inductive FsEffect where
  | mkdirBase (path : List String)
  | mkdirRunDir (rel : List String)
  | copyFile (rel : List String)
  | removeRun (dirName : String)
deriving DecidableEq, Repr

/-- Result of the copy walk: the `copied`/`skipped` counters, the copied
files with their contents, and the filesystem effects in order. -/
structure WalkOut where
  copied : Nat
  skipped : Nat
  files : List (List String × List Nat)
  effects : List FsEffect
deriving DecidableEq

/-- The copy walk of `run_profile_backup` (src/backup.py lines 117-141)
over the entries of a directory whose own relative path `r` already passed
its exclusion check: an excluded file or directory bumps `skipped` by one
and (for a directory) is never descended into; an included directory gets
its destination directory created and is walked recursively; an included
file is copied. -/
def walkEntries (patterns : List String) (r : List String) :
    Entries → WalkOut
  | Entries.nil => ⟨0, 0, [], []⟩
  | Entries.fileEntry name content rest =>
      let rel := r ++ [name]
      let w := walkEntries patterns r rest
      if shouldExclude (joinPath rel) patterns then
        { w with skipped := w.skipped + 1 }
      else
        { w with
            copied := w.copied + 1,
            files := (rel, content) :: w.files,
            effects := FsEffect.copyFile rel :: w.effects }
  | Entries.dirEntry name es rest =>
      let rel := r ++ [name]
      let w := walkEntries patterns r rest
      if shouldExclude (joinPath rel) patterns then
        { w with skipped := w.skipped + 1 }
      else
        let sub := walkEntries patterns rel es
        ⟨sub.copied + w.copied, sub.skipped + w.skipped,
         sub.files ++ w.files,
         FsEffect.mkdirRunDir rel :: (sub.effects ++ w.effects)⟩

/-- The whole copy pass: the source root has relative path `""`, is never
excluded, and gets the run's destination root directory created. -/
def copyWalk (patterns : List String) (entries : Entries) : WalkOut :=
  let w := walkEntries patterns [] entries
  { w with effects := FsEffect.mkdirRunDir [] :: w.effects }

/-- All file paths of a directory's entries, as suffixes relative to that
directory, with their contents; exclusion is ignored. -/
def allFiles : Entries → List (List String × List Nat)
  | Entries.nil => []
  | Entries.fileEntry name c rest => ([name], c) :: allFiles rest
  | Entries.dirEntry name es rest =>
      (allFiles es).map (fun f => (name :: f.1, f.2)) ++ allFiles rest

/-- A file suffix survives the walk below prefix `r` iff no directory level
along it, and not the file itself, is excluded. -/
def pathOk (patterns : List String) : List String → List String → Bool
  | _, [] => true
  | r, [f] => !shouldExclude (joinPath (r ++ [f])) patterns
  | r, d :: rest =>
      !shouldExclude (joinPath (r ++ [d])) patterns &&
        pathOk patterns (r ++ [d]) rest

/-! ## SHA-256 (the `hashlib.sha256` digest used by `_hash_file`) -/

/-- Reduce to a 32-bit word. -/
def w32 (x : Nat) : Nat := x % 4294967296

/-- 32-bit right rotation. -/
def rotr32 (n x : Nat) : Nat := w32 ((x >>> n) ||| (x <<< (32 - n)))

/-- The SHA-256 round constants (decimal). -/
def sha256K : List Nat :=
  [1116352408, 1899447441, 3049323471,
   3921009573, 961987163, 1508970993,
   2453635748, 2870763221, 3624381080,
   310598401, 607225278, 1426881987,
   1925078388, 2162078206, 2614888103,
   3248222580, 3835390401, 4022224774,
   264347078, 604807628, 770255983,
   1249150122, 1555081692, 1996064986,
   2554220882, 2821834349, 2952996808,
   3210313671, 3336571891, 3584528711,
   113926993, 338241895, 666307205,
   773529912, 1294757372, 1396182291,
   1695183700, 1986661051, 2177026350,
   2456956037, 2730485921, 2820302411,
   3259730800, 3345764771, 3516065817,
   3600352804, 4094571909, 275423344,
   430227734, 506948616, 659060556,
   883997877, 958139571, 1322822218,
   1537002063, 1747873779, 1955562222,
   2024104815, 2227730452, 2361852424,
   2428436474, 2756734187, 3204031479,
   3329325298]

/-- The SHA-256 initial hash state (decimal). -/
def sha256H0 : List Nat :=
  [1779033703, 3144134277, 1013904242,
   2773480762, 1359893119, 2600822924,
   528734635, 1541459225]

/-- Big-endian 8-byte encoding. -/
def be64 (n : Nat) : List Nat :=
  (List.range 8).map (fun i => (n >>> ((7 - i) * 8)) &&& 255)

/-- Big-endian 4-byte encoding. -/
def be32 (n : Nat) : List Nat :=
  [(n >>> 24) &&& 255, (n >>> 16) &&& 255, (n >>> 8) &&& 255, n &&& 255]

/-- SHA-256 padding: `0x80`, zeros to 56 mod 64, 8-byte bit length. -/
def sha256Pad (msg : List Nat) : List Nat :=
  let len := msg.length
  let zeros := (120 - ((len + 1) % 64)) % 64
  msg ++ [0x80] ++ List.replicate zeros 0 ++ be64 (len * 8)

/-- Big-endian 4-byte groups to 32-bit words. -/
def bytesToWords : List Nat → List Nat
  | b0 :: b1 :: b2 :: b3 :: rest =>
      (((b0 * 256 + b1) * 256 + b2) * 256 + b3) :: bytesToWords rest
  | _ => []

/-- List element with default 0. -/
def getW (l : List Nat) (i : Nat) : Nat := l.getD i 0

/-- One message-schedule extension step. -/
def scheduleStep (acc : List Nat) (_i : Nat) : List Nat :=
  let t := acc.length
  let x15 := getW acc (t - 15)
  let x2 := getW acc (t - 2)
  let s0 := rotr32 7 x15 ^^^ rotr32 18 x15 ^^^ (x15 >>> 3)
  let s1 := rotr32 17 x2 ^^^ rotr32 19 x2 ^^^ (x2 >>> 10)
  acc ++ [w32 (getW acc (t - 16) + s0 + getW acc (t - 7) + s1)]

/-- The 64-word message schedule of one block. -/
def sha256Schedule (ws16 : List Nat) : List Nat :=
  (List.range 48).foldl scheduleStep ws16

/-- One SHA-256 compression round on the 8-word working state. -/
def compressStep (st : List Nat) (kw : Nat × Nat) : List Nat :=
  let a := getW st 0
  let b := getW st 1
  let c := getW st 2
  let d := getW st 3
  let e := getW st 4
  let f := getW st 5
  let g := getW st 6
  let h := getW st 7
  let s1 := rotr32 6 e ^^^ rotr32 11 e ^^^ rotr32 25 e
  let ch := (e &&& f) ^^^ ((e ^^^ 4294967295) &&& g)
  let temp1 := w32 (h + s1 + ch + kw.1 + kw.2)
  let s0 := rotr32 2 a ^^^ rotr32 13 a ^^^ rotr32 22 a
  let maj := (a &&& b) ^^^ (a &&& c) ^^^ (b &&& c)
  let temp2 := w32 (s0 + maj)
  [w32 (temp1 + temp2), a, b, c, w32 (d + temp1), e, f, g]

/-- Compress one 64-byte block into the hash state. -/
def sha256Compress (h : List Nat) (block : List Nat) : List Nat :=
  let ws := sha256Schedule (bytesToWords block)
  let st := (sha256K.zip ws).foldl compressStep h
  List.zipWith (fun x y => w32 (x + y)) h st

/-- Split a list into chunks of `n` (the last one possibly shorter). -/
def chunksOfAux (n : Nat) : Nat → List α → List (List α)
  | 0, _ => []
  | fuel + 1, l =>
      if l.isEmpty || n == 0 then []
      else l.take n :: chunksOfAux n fuel (l.drop n)

/-- With positive `n` every step consumes at least one element, so
`l.length` steps of fuel always suffice. -/
def chunksOf (n : Nat) (l : List α) : List (List α) :=
  chunksOfAux n l.length l

/-- SHA-256 digest bytes of a byte list. -/
def sha256 (msg : List Nat) : List Nat :=
  let blocks := chunksOf 64 (sha256Pad msg)
  let hFinal := blocks.foldl sha256Compress sha256H0
  hFinal.foldr (fun w acc => be32 w ++ acc) []

/-- `_hash_file` (src/backup.py lines 209-214): read the content in 1 MiB
chunks, feeding each chunk to an incremental SHA-256; incremental updates
digest the concatenation of the chunks.  The digest bytes stand for
`hexdigest()` (hex encoding is injective). -/
def hashFile (content : List Nat) : List Nat :=
  sha256 (chunksOf 1048576 content).flatten

/-! ## Verification pass (`_verify_backup`, src/backup.py lines 175-206)

The verify pass re-walks the full source with `os.walk` WITHOUT pruning
(`for root, _, files in os.walk(source)` never modifies the directory
list): an excluded directory only has its own files skipped, its
subdirectories are still descended into.  The destination is abstracted as
a lookup from relative path to content (`None` = `dest_path.exists()` is
false). -/

/-- Mismatch count contributed by the files of one directory whose
relative path is `r`; `rExcluded` is `_should_exclude(rel_dir, patterns)`
for that directory. -/
def verifyEntriesRec (patterns : List String)
    (dest : List String → Option (List Nat)) (mode : String)
    (r : List String) (rExcluded : Bool) : Entries → Nat
  | Entries.nil => 0
  | Entries.fileEntry name content rest =>
      (if rExcluded then 0
       else if shouldExclude (joinPath (r ++ [name])) patterns then 0
       else
         match dest (r ++ [name]) with
         | none => 1
         | some dcontent =>
             if mode = "size" then
               if content.length ≠ dcontent.length then 1 else 0
             else
               if hashFile content ≠ hashFile dcontent then 1 else 0)
      + verifyEntriesRec patterns dest mode r rExcluded rest
  | Entries.dirEntry name es rest =>
      verifyEntriesRec patterns dest mode (r ++ [name])
          (shouldExclude (joinPath (r ++ [name])) patterns) es
        + verifyEntriesRec patterns dest mode r rExcluded rest

/-- `_verify_backup`: walk from the source root (relative path `""`). -/
def verifyBackup (patterns : List String)
    (dest : List String → Option (List Nat)) (mode : String)
    (entries : Entries) : Nat :=
  verifyEntriesRec patterns dest mode [] (shouldExclude (joinPath []) patterns)
    entries

/-- Destination lookup built from the copy pass's output. -/
def destOf (files : List (List String × List Nat)) :
    List String → Option (List Nat) :=
  fun rel => (files.find? (fun f => f.1 == rel)).map (fun f => f.2)

/-! ## Retention (`_apply_retention`, src/backup.py lines 217-227) -/

/-- Lexicographic code-point comparison of character lists: the order
Python `sorted` uses on the run-directory names. -/
def charListLe : List Char → List Char → Bool
  | [], _ => true
  | _ :: _, [] => false
  | a :: as, b :: bs =>
      if a.toNat < b.toNat then true
      else if b.toNat < a.toNat then false
      else charListLe as bs

/-- Python string comparison `a <= b`. -/
def strLeB (a b : String) : Bool := charListLe a.data b.data

/-- The sort relation used by retention. -/
def strLe (a b : String) : Prop := strLeB a b = true

instance : DecidableRel strLe :=
  fun a b => inferInstanceAs (Decidable (strLeB a b = true))

/-- The run-directory names `_apply_retention` removes: sort by name, and
when the count exceeds `retentionCount` take the oldest excess ones. -/
def applyRetention (names : List String) (k : Nat) : List String :=
  let runs := List.insertionSort strLe names
  if runs.length ≤ k then []
  else runs.take (runs.length - k)

/-- The run-directory names retention leaves in place. -/
def retentionKept (names : List String) (k : Nat) : List String :=
  let runs := List.insertionSort strLe names
  if runs.length ≤ k then runs
  else runs.drop (runs.length - k)

/-! ## `run_profile_backup` (src/backup.py lines 85-153) -/

/-- A Profile as the local engine reads it. -/
structure ProfileRec where
  name : String
  sourcePath : List String
  destPath : List String
  excludePatterns : List String
  verifyMode : String
  retentionCount : Nat

/-- Environment of one local run: does the source exist, the
canonicalisation `Path.resolve` performs (symlinks, case, `..`), the
source tree's entries, and the run-directory names already present under
`dest_path/profile_name`. -/
structure LocalEnv where
  sourceExists : Bool
  resolve : List String → List String
  sourceTree : Entries
  existingRuns : List String

/-- `PurePath.is_relative_to`: the ancestor's components are a prefix of
the path's components (equality included). -/
def isRelativeTo (path ancestor : List String) : Bool :=
  List.isPrefixOf ancestor path

/-- `run_profile_backup`: source-existence check, then
`dest_base.mkdir(parents=True, exist_ok=True)`, then the resolved-path
containment check, then the copy walk, the optional verification pass, the
optional retention pass, and the outcome.  Per-file copy I/O errors are
environmental and not modelled, so the `errors` counter is 0. -/
def run_profile_backup (env : LocalEnv) (p : ProfileRec) (timestamp : String) :
    (String × String) × List FsEffect :=
  let source := p.sourcePath
  let destBase := p.destPath ++ [p.name]
  if env.sourceExists = false then
    (("failed", "Source path does not exist"), [])
  else if isRelativeTo (env.resolve destBase) (env.resolve source) then
    (("failed", "Destination cannot be inside source"),
     [FsEffect.mkdirBase destBase])
  else
    let w := copyWalk p.excludePatterns env.sourceTree
    let mismatches :=
      if p.verifyMode = "size" ∨ p.verifyMode = "hash" then
        verifyBackup p.excludePatterns (destOf w.files) p.verifyMode
          env.sourceTree
      else 0
    let removed :=
      if 0 < p.retentionCount then
        applyRetention (env.existingRuns ++ [timestamp]) p.retentionCount
      else []
    let effects :=
      FsEffect.mkdirBase destBase :: w.effects ++
        removed.map FsEffect.removeRun
    if 0 < mismatches then
      (("failed",
        "Completed with 0 errors and " ++ toString mismatches ++
          " mismatches"),
       effects)
    else
      (("success",
        "Completed: " ++ toString w.copied ++ " files copied, " ++
          toString w.skipped ++ " skipped"),
       effects)

/-! ## Scheduler date model (src/scheduler.py)

Python `datetime` values are modelled at second granularity (the values
compared against a second-0 instant never need microseconds).  Calendar
arithmetic follows `calendar.monthrange` and `timedelta`. -/

structure Date where
  year : Nat
  month : Nat
  day : Nat
deriving DecidableEq, Repr

structure Time where
  hour : Nat
  minute : Nat
  second : Nat
deriving DecidableEq, Repr

structure DateTime where
  date : Date
  time : Time
deriving DecidableEq, Repr

/-- A parsed `schedule_time` (`"HH:MM"`). -/
structure ClockTime where
  hour : Nat
  minute : Nat
deriving DecidableEq, Repr

/-- Gregorian leap-year rule (`calendar.isleap`). -/
def isLeapYear (y : Nat) : Bool :=
  y % 4 == 0 && (y % 100 != 0 || y % 400 == 0)

/-- `calendar.monthrange(y, m)[1]`: the number of days in a month. -/
def daysInMonth (y m : Nat) : Nat :=
  if m = 2 then (if isLeapYear y then 29 else 28)
  else if m = 4 ∨ m = 6 ∨ m = 9 ∨ m = 11 then 30
  else 31

/-- The calendar successor of a date. -/
def nextDay (d : Date) : Date :=
  if d.day < daysInMonth d.year d.month then { d with day := d.day + 1 }
  else if d.month < 12 then { year := d.year, month := d.month + 1, day := 1 }
  else { year := d.year + 1, month := 1, day := 1 }

/-- `date + timedelta(days=n)`. -/
def addDays : Nat → Date → Date
  | 0, d => d
  | n + 1, d => addDays n (nextDay d)

/-- `_add_months` (src/scheduler.py lines 28-33): same day-of-month in the
target month, clamped to that month's length. -/
def addMonths (v : Date) (months : Nat) : Date :=
  let monthIndex := v.month - 1 + months
  let year := v.year + monthIndex / 12
  let month := monthIndex % 12 + 1
  let day := min v.day (daysInMonth year month)
  ⟨year, month, day⟩

/-- `_add_years` (src/scheduler.py lines 36-39): same month and day in the
target year, the day clamped (February 29 outside leap years). -/
def addYears (v : Date) (years : Nat) : Date :=
  let targetYear := v.year + years
  let day := min v.day (daysInMonth targetYear v.month)
  ⟨targetYear, v.month, day⟩

/-- The `"%H:%M"` string comparison `a <= b` for zero-padded well-formed
times coincides with this lexicographic comparison. -/
def clockLe (a b : ClockTime) : Bool :=
  if a.hour < b.hour then true
  else if b.hour < a.hour then false
  else a.minute ≤ b.minute

/-- Strict `"%H:%M"` comparison. -/
def clockLt (a b : ClockTime) : Bool :=
  if a.hour < b.hour then true
  else if b.hour < a.hour then false
  else a.minute < b.minute

/-- The clock component of a datetime. -/
def clockOf (dt : DateTime) : ClockTime :=
  ⟨dt.time.hour, dt.time.minute⟩

/-- Python `datetime` comparison `a <= b` (field-lexicographic, which for
valid datetimes equals instant comparison). -/
def dtLe (a b : DateTime) : Bool :=
  if a.date.year < b.date.year then true
  else if b.date.year < a.date.year then false
  else if a.date.month < b.date.month then true
  else if b.date.month < a.date.month then false
  else if a.date.day < b.date.day then true
  else if b.date.day < a.date.day then false
  else if a.time.hour < b.time.hour then true
  else if b.time.hour < a.time.hour then false
  else if a.time.minute < b.time.minute then true
  else if b.time.minute < a.time.minute then false
  else a.time.second ≤ b.time.second

/-- `_next_scheduled_after` (src/scheduler.py lines 42-52): replace the
clock component with `schedule_time` (seconds and microseconds zeroed),
then advance one period according to the frequency; any frequency other
than week/month/year (i.e. "day") adds one day. -/
def nextScheduledAfter (lastStarted : DateTime) (t : ClockTime)
    (frequency : String) : DateTime :=
  let base : DateTime := ⟨lastStarted.date, ⟨t.hour, t.minute, 0⟩⟩
  if frequency = "week" then ⟨addDays 7 base.date, base.time⟩
  else if frequency = "month" then ⟨addMonths base.date 1, base.time⟩
  else if frequency = "year" then ⟨addYears base.date 1, base.time⟩
  else ⟨addDays 1 base.date, base.time⟩

/-- The spec's description of the next due instant: the prior run's local
start advanced by exactly one recurrence period, with the clock component
reset to `schedule_time`. -/
def nextDueSpec (lastStarted : DateTime) (t : ClockTime)
    (frequency : String) : DateTime :=
  let advanced : Date :=
    if frequency = "week" then addDays 7 lastStarted.date
    else if frequency = "month" then addMonths lastStarted.date 1
    else if frequency = "year" then addYears lastStarted.date 1
    else addDays 1 lastStarted.date
  ⟨advanced, ⟨t.hour, t.minute, 0⟩⟩

/-- `_is_due_from_last_success` (src/scheduler.py lines 55-68). -/
def isDueFromLastSuccess (nowLocal lastStartedLocal : DateTime)
    (t : ClockTime) (frequency : String) : Bool :=
  let todaySchedulePassed := clockLe t (clockOf nowLocal)
  if lastStartedLocal.date = nowLocal.date ∧
      clockLt (clockOf lastStartedLocal) t = true then
    todaySchedulePassed
  else
    dtLe (nextScheduledAfter lastStartedLocal t frequency) nowLocal

/-- Howard Hinnant's `days_from_civil`: days since 1970-01-01 of a
proleptic-Gregorian date, with C-style truncating integer division.
Models `datetime` subtraction across month and year boundaries. -/
def daysFromCivil (d : Date) : Int :=
  let y : Int := if d.month ≤ 2 then (d.year : Int) - 1 else (d.year : Int)
  let era : Int := (if 0 ≤ y then y else y - 399) / 400
  let yoe : Int := y - era * 400
  let m : Int := (d.month : Int)
  let doy : Int := (153 * (if 2 < m then m - 3 else m + 9) + 2) / 5 + (d.day : Int) - 1
  let doe : Int := yoe * 365 + yoe / 4 - yoe / 100 + doy
  era * 146097 + doe - 719468

/-- Seconds of `a - b` as a `timedelta.total_seconds()` (exact). -/
def secondsDiff (a b : DateTime) : Int :=
  (daysFromCivil a.date - daysFromCivil b.date) * 86400 +
    ((a.time.hour : Int) * 3600 + (a.time.minute : Int) * 60 + a.time.second -
     ((b.time.hour : Int) * 3600 + (b.time.minute : Int) * 60 + b.time.second))

/-- The failed/still-running branch of `Scheduler._run_cycle`
(src/scheduler.py lines 131-145), reached when the schedule gate has
passed and the last run's status is not "success": with a `finished_at`,
due iff `hours_since_last >= 1.0`, i.e. at least 3600 seconds have
elapsed (`total_seconds()/3600` is exact at this boundary); without one,
never due. -/
def retryDue (nowUtc : DateTime) (finishedAt : Option DateTime) : Bool :=
  match finishedAt with
  | none => false
  | some f => decide (3600 ≤ secondsDiff nowUtc f)

/-! ## SSH backup runner (src/backup.py, class SSHBackupRunner)

The remote host is abstracted as an oracle: the exit status of each
executed shell command, the success of each remote-path transfer (the
source reports both the archive and the raw strategy as one Bool), and
per-host connectivity. -/

/-- Python `str.strip()` over the ASCII whitespace characters. -/
def pyStrip (s : String) : String :=
  let ws : List Char := [' ', '\t', '\n', '\x0b', '\x0c', '\r']
  String.mk
    (((s.data.dropWhile (fun c => ws.contains c)).reverse.dropWhile
        (fun c => ws.contains c)).reverse)

/-- One configured pre-command: a bare string or a
`{command, use_sudo, timeout}` object (absent keys as `none`). -/
inductive PreCmd where
  | simple (command : String)
  | detailed (command : String) (use_sudo : Option Bool) (timeout : Option Nat)
deriving DecidableEq, Repr

/-- `_normalize_pre_command` (src/backup.py lines 361-368). -/
def normalizePreCommand (item : PreCmd) (defaultSudo : Bool) :
    String × Bool × Nat :=
  match item with
  | PreCmd.detailed command elevate timeout =>
      (pyStrip command, elevate.getD defaultSudo, timeout.getD 3600)
  | PreCmd.simple command => (pyStrip command, defaultSudo, 3600)

/-- Observable remote interactions of one server backup. -/
inductive SshEffect where
  | execCmd (cmd : String)
  | transfer (remotePath : String)
deriving DecidableEq, Repr

/-- Remote-side oracle. -/
structure SshEnv where
  paramikoOk : Bool
  connectOk : String → Bool
  exitStatus : String → Int
  transferOk : String → String → Bool

/-- `_run_pre_commands` (src/backup.py lines 341-359): run each normalized
command in configured order (empty commands are skipped), wrapping with
`sudo -S sh -c "..."` when elevation is requested; stop at the first
nonzero exit status.  Returns (all exited zero, executed commands in
order). -/
def runPreCommands (env : SshEnv) (useSudo : Bool) :
    List PreCmd → Bool × List String
  | [] => (true, [])
  | item :: rest =>
      let n := normalizePreCommand item useSudo
      if n.1 = "" then runPreCommands env useSudo rest
      else
        let cmd :=
          if n.2.1 then "sudo -S sh -c \"" ++ n.1 ++ "\"" else n.1
        if env.exitStatus cmd ≠ 0 then (false, [cmd])
        else
          let r := runPreCommands env useSudo rest
          (r.1, cmd :: r.2)

/-- The full shell commands `_run_pre_commands` would execute, in
configured order: normalized commands with the empty ones dropped and the
sudo wrapper applied. -/
def wrappedCmds (commands : List PreCmd) (useSudo : Bool) : List String :=
  commands.filterMap (fun item =>
    let n := normalizePreCommand item useSudo
    if n.1 = "" then none
    else some (if n.2.1 then "sudo -S sh -c \"" ++ n.1 ++ "\"" else n.1))

/-- The prefix of a command list that actually runs: everything up to and
including the first command with a nonzero exit status. -/
def firstFailTrace (env : SshEnv) : List String → List String
  | [] => []
  | c :: rest =>
      if env.exitStatus c ≠ 0 then [c] else c :: firstFailTrace env rest

/-- One configured server. -/
structure Server where
  name : Option String
  host : String
  enabled : Bool
  remotePaths : List String
  preCommands : List PreCmd
  preBackupCommands : List PreCmd
  useSudo : Bool
  preCommandsUseSudo : Option Bool
  sudoPassword : String
  useCompression : Bool
  excludePatterns : List String

/-- `server.get("name") or server.get("host")`. -/
def serverName (s : Server) : String :=
  match s.name with
  | some n => if n = "" then s.host else n
  | none => s.host

/-- The per-path transfer loop of `_backup_server` (src/backup.py lines
308-334): both the archive and the raw strategy yield a Bool, and a false
one aborts the server with `"Failed to backup {remote_path}"`. -/
def transferPaths (env : SshEnv) (host nm : String) :
    List String → List SshEffect → (String × String) × List SshEffect
  | [], acc => (("success", "SSH backup finished for " ++ nm), acc)
  | p :: rest, acc =>
      if env.transferOk host p then
        transferPaths env host nm rest (acc ++ [SshEffect.transfer p])
      else
        (("failed", "Failed to backup " ++ p), acc ++ [SshEffect.transfer p])

/-- `_backup_server` (src/backup.py lines 265-339): connect, run the
pre-commands (`pre_commands` then `pre_backup_commands`, sudo default from
`pre_commands_use_sudo` falling back to `use_sudo`), abort on their
failure, then transfer each remote path. -/
def backupServer (env : SshEnv) (server : Server) :
    (String × String) × List SshEffect :=
  let nm := serverName server
  if env.connectOk server.host = false then
    (("failed", "SSH connect failed for " ++ nm), [])
  else
    let preCmds := server.preCommands ++ server.preBackupCommands
    let preSudo := server.preCommandsUseSudo.getD server.useSudo
    let pre := runPreCommands env preSudo preCmds
    let preEffects := pre.2.map SshEffect.execCmd
    if pre.1 = false then
      (("failed", "Pre-commands failed for " ++ nm), preEffects)
    else
      transferPaths env server.host nm server.remotePaths preEffects

/-- The SSH task configuration (`ssh_config` setting). -/
structure SshConfig where
  servers : List Server
  localBackupDir : String
  excludePatterns : List String

/-- The per-server loop of `SSHBackupRunner.run` (src/backup.py lines
256-263): skip disabled servers, short-circuit on the first failure. -/
def sshRunServers (env : SshEnv) :
    List Server → List SshEffect → (String × String) × List SshEffect
  | [], acc => (("success", "SSH backups completed"), acc)
  | s :: rest, acc =>
      if s.enabled = false then sshRunServers env rest acc
      else
        let r := backupServer env s
        if r.1.1 ≠ "success" then (r.1, acc ++ r.2)
        else sshRunServers env rest (acc ++ r.2)

/-- `str(Path(s))` for the strings this code builds paths from: `Path("")`
is `Path('.')`, whose string form is `"."`; a nonempty string stays
nonempty (Path only normalises separators).  Only the emptiness of the
result matters below. -/
def strOfPath (s : String) : String :=
  if s = "" then "." else s

/-- `SSHBackupRunner.run` (src/backup.py lines 235-263).  The
`local_base = Path(config.get("local_backup_dir", ""))` /
`if not str(local_base)` check is embedded as written, but it is dead
code: `str(Path(""))` is `"."`, so the string is never empty and the run
proceeds (into `./<name>/<timestamp>`) even with an empty or missing
`local_backup_dir`. -/
def sshRun (env : SshEnv) (config : SshConfig) :
    (String × String) × List SshEffect :=
  if env.paramikoOk = false then (("failed", "paramiko not installed"), [])
  else if config.servers.isEmpty then
    (("failed", "No SSH servers configured"), [])
  else if strOfPath config.localBackupDir = "" then
    (("failed", "Missing local_backup_dir"), [])
  else sshRunServers env config.servers []


/-- A sample source tree used by concrete walk facts:
`keep.txt`, `logs/x.tmp`, `logs/sub/a.txt`, `data/readme.md`. -/
def sampleTree : Entries :=
  Entries.fileEntry "keep.txt" [4]
    (Entries.dirEntry "logs"
      (Entries.fileEntry "x.tmp" [1]
        (Entries.dirEntry "sub"
          (Entries.fileEntry "a.txt" [2] Entries.nil) Entries.nil))
      (Entries.dirEntry "data"
        (Entries.fileEntry "readme.md" [3] Entries.nil) Entries.nil))

/-! ## Queue lemmas -/

theorem enqueue_running {s : QState} {pid : Nat} {trig : String}
    (h : pid ∈ s.running) : enqueue s pid trig = (false, s) := by
  simp [enqueue, h]

theorem enqueue_queued {s : QState} {pid : Nat} {trig : String}
    (h : ∃ it ∈ s.queue, it.profile_id = pid) :
    enqueue s pid trig = (false, s) := by
  obtain ⟨it, hm, he⟩ := h
  have hany : s.queue.any (fun item => item.profile_id == pid) = true := by
    exact List.any_eq_true.mpr ⟨it, hm, by simp [he]⟩
  unfold enqueue
  by_cases hr : pid ∈ s.running <;> simp [hr, hany]

theorem enqueue_fresh {s : QState} {pid : Nat} {trig : String}
    (hr : pid ∉ s.running) (hq : ∀ it ∈ s.queue, it.profile_id ≠ pid) :
    enqueue s pid trig = (true, { s with queue := s.queue ++ [⟨pid, trig⟩] }) := by
  have hany : s.queue.any (fun item => item.profile_id == pid) = false := by
    simp only [List.any_eq_false]
    intro it hm
    simpa using hq it hm
  simp [enqueue, hr, hany]

theorem occurrences_enqueue_fresh {s : QState} {pid q : Nat} {trig : String}
    (hr : pid ∉ s.running) (hq : ∀ it ∈ s.queue, it.profile_id ≠ pid) :
    occurrences (enqueue s pid trig).2 q =
      occurrences s q + (if q = pid then 1 else 0) := by
  rw [enqueue_fresh hr hq]
  by_cases h : q = pid
  · subst h
    have h0 : s.queue.countP (fun item => item.profile_id == q) = 0 := by
      rw [List.countP_eq_zero]
      intro it hm
      simpa using hq it hm
    simp [occurrences, List.countP_append, h0, hr]
  · simp [occurrences, List.countP_append, List.countP_cons, Ne.symm h, h]

theorem singleFlight_enqueue {s : QState} (pid : Nat) (trig : String)
    (h : SingleFlight s) : SingleFlight (enqueue s pid trig).2 := by
  by_cases hr : pid ∈ s.running
  · rw [enqueue_running hr]; exact h
  · by_cases hq : ∃ it ∈ s.queue, it.profile_id = pid
    · rw [enqueue_queued hq]; exact h
    · push_neg at hq
      intro q
      rw [occurrences_enqueue_fresh hr hq]
      by_cases hqp : q = pid
      · subst hqp
        have h0 : s.queue.countP (fun item => item.profile_id == q) = 0 := by
          rw [List.countP_eq_zero]
          intro it hm
          simpa using hq it hm
        simp [occurrences, h0, hr]
      · have := h q
        simpa [hqp] using this

/-- C1: `enqueue` returns false with no state change when the id is running
or queued, otherwise appends exactly one item at the tail and returns true;
it preserves the single-flight invariant, and a second enqueue for the same
profile before dispatch returns false, changes nothing, and (starting from
an empty queue) leaves the queue length at 1. -/
theorem backupQueue_enqueue_single_flight (s : QState) (pid : Nat) (trig : String) :
    ((pid ∈ s.running ∨ ∃ it ∈ s.queue, it.profile_id = pid) →
        enqueue s pid trig = (false, s)) ∧
    ((pid ∉ s.running ∧ ∀ it ∈ s.queue, it.profile_id ≠ pid) →
        enqueue s pid trig =
          (true, { s with queue := s.queue ++ [⟨pid, trig⟩] })) ∧
    (SingleFlight s → SingleFlight (enqueue s pid trig).2) ∧
    ((pid ∉ s.running ∧ ∀ it ∈ s.queue, it.profile_id ≠ pid) → ∀ trig',
        (enqueue (enqueue s pid trig).2 pid trig').1 = false ∧
        (enqueue (enqueue s pid trig).2 pid trig').2 = (enqueue s pid trig).2 ∧
        (s.queue = [] →
          (enqueue (enqueue s pid trig).2 pid trig').2.queue.length = 1)) := by
  refine ⟨?_, ?_, singleFlight_enqueue pid trig, ?_⟩
  · rintro (hr | hq)
    · exact enqueue_running hr
    · exact enqueue_queued hq
  · rintro ⟨hr, hq⟩
    exact enqueue_fresh hr hq
  · rintro ⟨hr, hq⟩ trig'
    have h1 : (enqueue s pid trig).2 = { s with queue := s.queue ++ [⟨pid, trig⟩] } := by
      rw [enqueue_fresh hr hq]
    have hmem : ∃ it ∈ (enqueue s pid trig).2.queue, it.profile_id = pid := by
      rw [h1]
      exact ⟨⟨pid, trig⟩, by simp, rfl⟩
    have h2 := @enqueue_queued (enqueue s pid trig).2 pid trig' hmem
    refine ⟨by rw [h2], by rw [h2], ?_⟩
    intro hemp
    rw [h2, h1, hemp]
    rfl

/-- Closed witness for C1 at a concrete state: first enqueue of profile 5
accepted, second rejected, queue length stays 1. -/
theorem backupQueue_enqueue_single_flight_witness :
    (enqueue (⟨[], ∅⟩ : QState) 5 "manual").1 = true ∧
    (enqueue (enqueue (⟨[], ∅⟩ : QState) 5 "manual").2 5 "scheduler").1 = false ∧
    (enqueue (enqueue (⟨[], ∅⟩ : QState) 5 "manual").2 5 "scheduler").2.queue.length = 1 := by
  have h := backupQueue_enqueue_single_flight (⟨[], ∅⟩ : QState) 5 "manual"
  have h4 := h.2.2.2 ⟨by decide, by decide⟩ "scheduler"
  refine ⟨?_, h4.1, h4.2.2 rfl⟩
  rw [h.2.1 ⟨by decide, by decide⟩]

/-- C10: a profile id with no stored Profile is accepted by `enqueue` and
dispatched by the worker, `run_backup` produces no persistence effect
(no Run record), the id is removed from the running set by the worker's
cleanup, and a later enqueue for it is accepted again. -/
theorem enqueue_no_existence_check (getProfile : Nat → Option Unit)
    (outcome : Unit → String × String) (pid : Nat) (trig trig' : String)
    (h : getProfile pid = none) :
    (enqueue (⟨[], ∅⟩ : QState) pid trig).1 = true ∧
    workerDispatch (enqueue (⟨[], ∅⟩ : QState) pid trig).2 =
      some (⟨pid, trig⟩, ⟨[], {pid}⟩) ∧
    run_backup getProfile outcome pid trig = [] ∧
    workerComplete pid (⟨[], {pid}⟩ : QState) = (⟨[], ∅⟩ : QState) ∧
    (enqueue (workerComplete pid (⟨[], {pid}⟩ : QState)) pid trig').1 = true := by
  have hcomp : workerComplete pid (⟨[], {pid}⟩ : QState) = (⟨[], ∅⟩ : QState) := by
    simp [workerComplete]
  refine ⟨?_, ?_, ?_, hcomp, ?_⟩
  · simp [enqueue]
  · simp [enqueue, workerDispatch]
  · simp [run_backup, h]
  · rw [hcomp]; simp [enqueue]

/-- Closed witness for C10 with an empty profile table and id 7. -/
theorem enqueue_no_existence_check_witness :
    (enqueue (⟨[], ∅⟩ : QState) 7 "manual").1 = true ∧
    workerDispatch (enqueue (⟨[], ∅⟩ : QState) 7 "manual").2 =
      some (⟨7, "manual"⟩, ⟨[], {7}⟩) ∧
    run_backup (fun _ => none) (fun _ => ("success", "")) 7 "manual" = [] ∧
    workerComplete 7 (⟨[], {7}⟩ : QState) = (⟨[], ∅⟩ : QState) ∧
    (enqueue (workerComplete 7 (⟨[], {7}⟩ : QState)) 7 "manual").1 = true :=
  enqueue_no_existence_check (fun _ => none) (fun _ => ("success", "")) 7
    "manual" "manual" rfl

/-! ## Scheduler theorems -/

/-- C2: when the current clock time has reached `schedule_time`, the
due decision from a successful last run is: due now if that run started
earlier today before `schedule_time`; otherwise due iff now has reached
the next instant, and that next instant is exactly the prior start
advanced by one recurrence period (day +1, week +7, month and year with
day-of-month clamping) with the clock reset to `schedule_time`. -/
theorem scheduler_due_from_last_success (now last : DateTime) (t : ClockTime)
    (freq : String) (hnow : clockLe t (clockOf now) = true) :
    nextScheduledAfter last t freq = nextDueSpec last t freq ∧
    isDueFromLastSuccess now last t freq =
      (if last.date = now.date ∧ clockLt (clockOf last) t = true then true
       else dtLe (nextDueSpec last t freq) now) := by
  have heq : nextScheduledAfter last t freq = nextDueSpec last t freq := by
    unfold nextScheduledAfter nextDueSpec
    by_cases h1 : freq = "week" <;> by_cases h2 : freq = "month" <;>
      by_cases h3 : freq = "year" <;> simp [h1, h2, h3]
  refine ⟨heq, ?_⟩
  unfold isDueFromLastSuccess
  by_cases h : last.date = now.date ∧ clockLt (clockOf last) t = true
  · simp [h, hnow]
  · simp [h, heq]

/-- Closed witness for C2: at schedule time 02:00 with day frequency, a
success yesterday at 02:05 makes today due at 02:00; a success today at
01:00 (before schedule time) also leaves today due; the month advance
clamps Jan 31 to Feb 29 in 2024 and the year advance clamps Feb 29 to
Feb 28 in 2025. -/
theorem scheduler_due_from_last_success_witness :
    isDueFromLastSuccess ⟨⟨2024, 6, 2⟩, ⟨2, 0, 0⟩⟩ ⟨⟨2024, 6, 1⟩, ⟨2, 5, 0⟩⟩
        ⟨2, 0⟩ "day" = true ∧
    isDueFromLastSuccess ⟨⟨2024, 6, 1⟩, ⟨2, 0, 0⟩⟩ ⟨⟨2024, 6, 1⟩, ⟨1, 0, 0⟩⟩
        ⟨2, 0⟩ "day" = true ∧
    nextScheduledAfter ⟨⟨2024, 1, 31⟩, ⟨3, 0, 0⟩⟩ ⟨3, 0⟩ "month" =
      ⟨⟨2024, 2, 29⟩, ⟨3, 0, 0⟩⟩ ∧
    nextScheduledAfter ⟨⟨2024, 2, 29⟩, ⟨3, 0, 0⟩⟩ ⟨3, 0⟩ "year" =
      ⟨⟨2025, 2, 28⟩, ⟨3, 0, 0⟩⟩ := by
  have h1 := scheduler_due_from_last_success ⟨⟨2024, 6, 2⟩, ⟨2, 0, 0⟩⟩
    ⟨⟨2024, 6, 1⟩, ⟨2, 5, 0⟩⟩ ⟨2, 0⟩ "day" (by decide)
  have h2 := scheduler_due_from_last_success ⟨⟨2024, 6, 1⟩, ⟨2, 0, 0⟩⟩
    ⟨⟨2024, 6, 1⟩, ⟨1, 0, 0⟩⟩ ⟨2, 0⟩ "day" (by decide)
  refine ⟨?_, ?_, by decide, by decide⟩
  · rw [h1.2]; decide
  · rw [h2.2]; decide

/-- C3: the retry path for a last run that did not succeed is due iff at
least one hour (3600 seconds, the exact meaning of
`total_seconds()/3600 >= 1.0`) has elapsed since `finished_at`, and never
due when `finished_at` is absent. -/
theorem scheduler_retry_backoff (now f : DateTime) :
    retryDue now none = false ∧
    (retryDue now (some f) = true ↔ 3600 ≤ secondsDiff now f) ∧
    (secondsDiff now f < 3600 → retryDue now (some f) = false) := by
  refine ⟨rfl, by simp [retryDue], ?_⟩
  intro h
  simp [retryDue]
  omega

/-- Closed witness for C3: a failure finished 30 minutes ago is not due,
one finished 90 minutes ago is due, and one with no `finished_at` is
never due. -/
theorem scheduler_retry_backoff_witness :
    retryDue ⟨⟨2024, 6, 1⟩, ⟨12, 30, 0⟩⟩ none = false ∧
    retryDue ⟨⟨2024, 6, 1⟩, ⟨12, 30, 0⟩⟩ (some ⟨⟨2024, 6, 1⟩, ⟨12, 0, 0⟩⟩) =
      false ∧
    retryDue ⟨⟨2024, 6, 1⟩, ⟨13, 30, 0⟩⟩ (some ⟨⟨2024, 6, 1⟩, ⟨12, 0, 0⟩⟩) =
      true := by
  have h1 := scheduler_retry_backoff ⟨⟨2024, 6, 1⟩, ⟨12, 30, 0⟩⟩
    ⟨⟨2024, 6, 1⟩, ⟨12, 0, 0⟩⟩
  have h2 := scheduler_retry_backoff ⟨⟨2024, 6, 1⟩, ⟨13, 30, 0⟩⟩
    ⟨⟨2024, 6, 1⟩, ⟨12, 0, 0⟩⟩
  exact ⟨h1.1, h1.2.2 (by decide), h2.2.1.mpr (by decide)⟩

/-! ## Path-safety theorems (C4) -/

/-- C4 counterexample: with the destination nested inside the source the
run does fail with "Destination cannot be inside source" and copies
nothing, but the claim's "nothing is created on disk before the check
fails" is false: `dest_base.mkdir(parents=True, exist_ok=True)` on line 93
runs before the containment check, so the destination base directory is
created. -/
theorem path_safety_mkdir_before_check :
    (run_profile_backup
        ⟨true, id, Entries.fileEntry "f.txt" [1] Entries.nil, []⟩
        ⟨"n", ["a"], ["a", "b"], [], "none", 0⟩ "ts").1 =
      ("failed", "Destination cannot be inside source") ∧
    (run_profile_backup
        ⟨true, id, Entries.fileEntry "f.txt" [1] Entries.nil, []⟩
        ⟨"n", ["a"], ["a", "b"], [], "none", 0⟩ "ts").2 =
      [FsEffect.mkdirBase ["a", "b", "n"]] ∧
    (run_profile_backup
        ⟨true, id, Entries.fileEntry "f.txt" [1] Entries.nil, []⟩
        ⟨"n", ["a"], ["a", "b"], [], "none", 0⟩ "ts").2 ≠ [] := by
  refine ⟨by decide, by decide, by decide⟩

/-- C4 amended: whenever the resolved destination base
(`dest_path/profile_name`) is equal to or nested inside the resolved
source, the run fails with status "failed" and message "Destination
cannot be inside source", decided by resolved-path containment; no file
is copied — but the destination base directory itself is created (the
`mkdir` precedes the check), which is the run's only filesystem effect. -/
theorem path_safety_resolved_containment (env : LocalEnv) (p : ProfileRec)
    (ts : String) (hsrc : env.sourceExists = true)
    (hin : isRelativeTo (env.resolve (p.destPath ++ [p.name]))
        (env.resolve p.sourcePath) = true) :
    run_profile_backup env p ts =
      (("failed", "Destination cannot be inside source"),
       [FsEffect.mkdirBase (p.destPath ++ [p.name])]) ∧
    ∀ rel, FsEffect.copyFile rel ∉ (run_profile_backup env p ts).2 := by
  have h : run_profile_backup env p ts =
      (("failed", "Destination cannot be inside source"),
       [FsEffect.mkdirBase (p.destPath ++ [p.name])]) := by
    unfold run_profile_backup
    simp [hsrc, hin]
  refine ⟨h, ?_⟩
  intro rel
  rw [h]
  simp

/-- Closed witness for C4's amended theorem, including the equal-path case
and a string-prefix pitfall: `["a", "bc"]` is not inside `["a", "b"]`
even though the joined string `"a/bc"` has `"a/b"` as a string prefix. -/
theorem path_safety_resolved_containment_witness :
    run_profile_backup
        ⟨true, id, Entries.nil, []⟩ ⟨"n", ["a", "b", "n"], ["a", "b"], [], "none", 0⟩
        "ts" =
      (("failed", "Destination cannot be inside source"),
       [FsEffect.mkdirBase ["a", "b", "n"]]) ∧
    isRelativeTo ["a", "bc"] ["a", "b"] = false := by
  have h := path_safety_resolved_containment
    ⟨true, id, Entries.nil, []⟩ ⟨"n", ["a", "b", "n"], ["a", "b"], [], "none", 0⟩
    "ts" rfl (by decide)
  exact ⟨h.1, by decide⟩

/-! ## Retention theorems (C7) -/

theorem charListLe_total (a : List Char) : ∀ b,
    charListLe a b = true ∨ charListLe b a = true := by
  induction a with
  | nil => intro b; left; rfl
  | cons x as ih =>
      intro b
      cases b with
      | nil => right; rfl
      | cons y bs =>
          by_cases h1 : x.toNat < y.toNat
          · left; simp [charListLe, h1]
          · by_cases h2 : y.toNat < x.toNat
            · right; simp [charListLe, h2]
            · rcases ih bs with h | h
              · left; simp [charListLe, h1, h2, h]
              · right; simp [charListLe, h1, h2, h]

theorem charListLe_cons (x y : Char) (as bs : List Char) :
    charListLe (x :: as) (y :: bs) = true ↔
      (x.toNat < y.toNat ∨ (x.toNat = y.toNat ∧ charListLe as bs = true)) := by
  simp only [charListLe]
  by_cases h1 : x.toNat < y.toNat
  · simp [h1]
  · by_cases h2 : y.toNat < x.toNat
    · rw [if_neg h1, if_pos h2]
      constructor
      · intro h; exact absurd h (by simp)
      · rintro (h | ⟨he, _⟩) <;> omega
    · have hxy : x.toNat = y.toNat := by omega
      rw [if_neg h1, if_neg h2]
      constructor
      · intro h; exact Or.inr ⟨hxy, h⟩
      · rintro (h | ⟨_, h⟩)
        · omega
        · exact h

theorem charListLe_trans (a : List Char) : ∀ b c,
    charListLe a b = true → charListLe b c = true → charListLe a c = true := by
  induction a with
  | nil => intro b c _ _; rfl
  | cons x as ih =>
      intro b c hab hbc
      cases b with
      | nil => simp [charListLe] at hab
      | cons y bs =>
          cases c with
          | nil => simp [charListLe] at hbc
          | cons z cs =>
              rw [charListLe_cons] at hab hbc ⊢
              rcases hab with h | ⟨he, hr⟩ <;> rcases hbc with h' | ⟨he', hr'⟩
              · left; omega
              · left; omega
              · left; omega
              · right; exact ⟨by omega, ih bs cs hr hr'⟩

instance : IsTotal String strLe :=
  ⟨fun a b => charListLe_total a.data b.data⟩

instance : IsTrans String strLe :=
  ⟨fun a b c => charListLe_trans a.data b.data c.data⟩

/-- No `rmtree` effect comes out of the copy walk. -/
theorem walk_no_removeRun (patterns : List String) (e : Entries) :
    ∀ r nm, FsEffect.removeRun nm ∉ (walkEntries patterns r e).effects := by
  induction e with
  | nil => intro r nm; simp [walkEntries]
  | fileEntry n c rest ih =>
      intro r nm
      simp only [walkEntries]
      split
      · exact ih r nm
      · simp only [List.mem_cons]
        rintro (h | h)
        · exact FsEffect.noConfusion h
        · exact ih r nm h
  | dirEntry n es rest ihes ihrest =>
      intro r nm
      simp only [walkEntries]
      split
      · exact ihrest r nm
      · simp only [List.mem_cons, List.mem_append]
        rintro (h | h | h)
        · exact FsEffect.noConfusion h
        · exact ihes (r ++ [n]) nm h
        · exact ihrest r nm h

/-- No `rmtree` effect comes out of the copy pass either. -/
theorem copyWalk_no_removeRun (patterns : List String) (e : Entries)
    (nm : String) : FsEffect.removeRun nm ∉ (copyWalk patterns e).effects := by
  simp only [copyWalk, List.mem_cons]
  rintro (h | h)
  · exact FsEffect.noConfusion h
  · exact walk_no_removeRun patterns e [] nm h

/-- C7: retention splits the sorted run-directory names into the removed
oldest excess and the kept `retention_count` greatest; nothing is removed
when the count does not exceed `retention_count`, every removed name
precedes every kept name in the sort order, removed plus kept is a
permutation of the whole listing, and a run with `retention_count = 0`
performs no removal at all. -/
theorem retention_keeps_newest (names : List String) (k : Nat) :
    applyRetention names k ++ retentionKept names k =
      List.insertionSort strLe names ∧
    (names.length ≤ k → applyRetention names k = []) ∧
    (k < names.length → (applyRetention names k).length = names.length - k ∧
        (retentionKept names k).length = k) ∧
    (∀ a ∈ applyRetention names k, ∀ b ∈ retentionKept names k, strLe a b) ∧
    (applyRetention names k ++ retentionKept names k).Perm names ∧
    (∀ env p ts, p.retentionCount = 0 →
        ∀ nm, FsEffect.removeRun nm ∉ (run_profile_backup env p ts).2) := by
  have hperm : (List.insertionSort strLe names).Perm names :=
    List.perm_insertionSort strLe names
  have hlen : (List.insertionSort strLe names).length = names.length :=
    hperm.length_eq
  have hsort : List.Sorted strLe (List.insertionSort strLe names) :=
    List.sorted_insertionSort strLe names
  have happ : applyRetention names k ++ retentionKept names k =
      List.insertionSort strLe names := by
    unfold applyRetention retentionKept
    by_cases h : (List.insertionSort strLe names).length ≤ k
    · rw [if_pos h, if_pos h, List.nil_append]
    · rw [if_neg h, if_neg h, List.take_append_drop]
  have hpw : List.Pairwise strLe
      (applyRetention names k ++ retentionKept names k) := by
    rw [happ]; exact hsort
  refine ⟨happ, ?_, ?_, ?_, ?_, ?_⟩
  · intro h
    have h' : (List.insertionSort strLe names).length ≤ k := by omega
    unfold applyRetention
    rw [if_pos h']
  · intro h
    have h' : ¬ (List.insertionSort strLe names).length ≤ k := by omega
    constructor
    · unfold applyRetention
      rw [if_neg h', List.length_take]
      omega
    · unfold retentionKept
      rw [if_neg h', List.length_drop]
      omega
  · exact fun a ha b hb => (List.pairwise_append.mp hpw).2.2 a ha b hb
  · rw [happ]; exact hperm
  · intro env p ts h0 nm
    simp only [run_profile_backup, h0, Nat.lt_irrefl, if_false,
      List.map_nil, List.append_nil]
    split_ifs <;> simp <;>
      exact copyWalk_no_removeRun p.excludePatterns env.sourceTree nm

/-- Closed witness for C7: five run directories named by ascending
timestamp plus the new run's directory, retention_count 2: exactly the
two most recent remain. -/
theorem retention_keeps_newest_witness :
    applyRetention
        ["20240101", "20240102", "20240103", "20240104", "20240105",
         "20240601"] 2 =
      ["20240101", "20240102", "20240103", "20240104"] ∧
    retentionKept
        ["20240101", "20240102", "20240103", "20240104", "20240105",
         "20240601"] 2 =
      ["20240105", "20240601"] ∧
    (retentionKept
        ["20240101", "20240102", "20240103", "20240104", "20240105",
         "20240601"] 2).length = 2 ∧
    ∀ nm, FsEffect.removeRun nm ∉
        (run_profile_backup ⟨true, id, Entries.nil, []⟩
          ⟨"n", ["s"], ["d"], [], "none", 0⟩ "ts").2 := by
  have h := retention_keeps_newest
    ["20240101", "20240102", "20240103", "20240104", "20240105", "20240601"] 2
  exact ⟨by decide, by decide, (h.2.2.1 (by decide)).2,
    fun nm => h.2.2.2.2.2 ⟨true, id, Entries.nil, []⟩
      ⟨"n", ["s"], ["d"], [], "none", 0⟩ "ts" rfl nm⟩

/-! ## Copy-walk theorems (C5) -/

theorem allFiles_ne_nil (e : Entries) : ∀ f ∈ allFiles e, f.1 ≠ [] := by
  induction e with
  | nil => intro f hf; simp [allFiles] at hf
  | fileEntry name c rest ih =>
      intro f hf
      rcases List.mem_cons.mp hf with h | h
      · subst h; simp
      · exact ih f h
  | dirEntry name es rest ihes ihrest =>
      intro f hf
      rcases List.mem_append.mp hf with h | h
      · rcases List.mem_map.mp h with ⟨g, _, hg⟩
        rw [← hg]
        simp
      · exact ihrest f h

theorem pathOk_cons (patterns : List String) (r : List String) (name : String) :
    ∀ suffix, suffix ≠ [] →
      pathOk patterns r (name :: suffix) =
        (!shouldExclude (joinPath (r ++ [name])) patterns &&
          pathOk patterns (r ++ [name]) suffix) := by
  intro suffix h
  match suffix with
  | [] => exact absurd rfl h
  | [f] => rfl
  | a :: b :: rest => rfl

/-- The copied files are exactly the tree's files whose own relative path
and every directory level leading to them survive the exclusion test. -/
theorem walk_files_eq (patterns : List String) (e : Entries) :
    ∀ r : List String,
      (walkEntries patterns r e).files =
        (allFiles e).filterMap (fun f =>
          if pathOk patterns r f.1 then some (r ++ f.1, f.2) else none) := by
  induction e with
  | nil => intro r; rfl
  | fileEntry name c rest ih =>
      intro r
      cases h : shouldExclude (joinPath (r ++ [name])) patterns with
      | true =>
          have hp : pathOk patterns r [name] = false := by simp [pathOk, h]
          simp [walkEntries, h, allFiles, List.filterMap_cons, hp, ih r]
      | false =>
          have hp : pathOk patterns r [name] = true := by simp [pathOk, h]
          simp [walkEntries, h, allFiles, List.filterMap_cons, hp, ih r]
  | dirEntry name es rest ihes ihrest =>
      intro r
      cases h : shouldExclude (joinPath (r ++ [name])) patterns with
      | true =>
          have hnil : (allFiles es).filterMap
              ((fun f => if pathOk patterns r f.1 then some (r ++ f.1, f.2)
                  else none) ∘ (fun f => (name :: f.1, f.2))) = [] := by
            rw [List.filterMap_eq_nil_iff]
            intro g hg
            have hne := allFiles_ne_nil es g hg
            simp only [Function.comp]
            rw [pathOk_cons patterns r name g.1 hne]
            simp [h]
          simp only [walkEntries, h, if_true, allFiles, List.filterMap_append,
            List.filterMap_map, hnil, List.nil_append]
          exact ihrest r
      | false =>
          have hcg : ∀ g ∈ allFiles es,
              ((fun f => if pathOk patterns r f.1 then some (r ++ f.1, f.2)
                  else none) ∘ (fun f => (name :: f.1, f.2))) g =
                (fun f => if pathOk patterns (r ++ [name]) f.1 then
                    some ((r ++ [name]) ++ f.1, f.2) else none) g := by
            intro g hg
            have hne := allFiles_ne_nil es g hg
            simp only [Function.comp]
            rw [pathOk_cons patterns r name g.1 hne]
            simp [h, List.append_assoc]
          simp only [walkEntries, h, allFiles, List.filterMap_append,
            List.filterMap_map]
          rw [List.filterMap_congr hcg, ← ihes (r ++ [name]), ← ihrest r]
          simp

theorem walk_copied_eq (patterns : List String) (e : Entries) :
    ∀ r, (walkEntries patterns r e).copied =
      (walkEntries patterns r e).files.length := by
  induction e with
  | nil => intro r; rfl
  | fileEntry name c rest ih =>
      intro r
      cases h : shouldExclude (joinPath (r ++ [name])) patterns <;>
        simp [walkEntries, h, ih r]
  | dirEntry name es rest ihes ihrest =>
      intro r
      cases h : shouldExclude (joinPath (r ++ [name])) patterns <;>
        simp [walkEntries, h, ihes (r ++ [name]), ihrest r]

/-- C5: `_should_exclude` holds iff some pattern glob-matches the full
relative path or its base name; a file is copied iff it survives the
exclusion test at its own path and at every directory level above it; an
excluded directory's whole subtree is skipped as one skipped item and
never descended into; an excluded file is one skipped item; the copied
counter counts exactly the copied files.  Concretely, with patterns
`["*.tmp", "logs"]` the file `logs/x.tmp` and the directory `logs` are
excluded, `data/readme.md` is not, and the sample tree copies exactly
`keep.txt` and `data/readme.md` with one skipped item. -/
theorem copy_walk_exclusion :
    (∀ patterns path, shouldExclude path patterns = true ↔
        (path ≠ "" ∧ ∃ pat ∈ patterns,
          fnmatchB path pat = true ∨ fnmatchB (baseName path) pat = true)) ∧
    (∀ patterns e r, (walkEntries patterns r e).files =
        (allFiles e).filterMap (fun f =>
          if pathOk patterns r f.1 then some (r ++ f.1, f.2) else none)) ∧
    (∀ patterns e r, (walkEntries patterns r e).copied =
        (walkEntries patterns r e).files.length) ∧
    (∀ patterns name es rest r,
        shouldExclude (joinPath (r ++ [name])) patterns = true →
        walkEntries patterns r (Entries.dirEntry name es rest) =
          { walkEntries patterns r rest with
              skipped := (walkEntries patterns r rest).skipped + 1 }) ∧
    (∀ patterns name c rest r,
        shouldExclude (joinPath (r ++ [name])) patterns = true →
        walkEntries patterns r (Entries.fileEntry name c rest) =
          { walkEntries patterns r rest with
              skipped := (walkEntries patterns r rest).skipped + 1 }) ∧
    shouldExclude "logs/x.tmp" ["*.tmp", "logs"] = true ∧
    shouldExclude "logs" ["*.tmp", "logs"] = true ∧
    shouldExclude "data/readme.md" ["*.tmp", "logs"] = false ∧
    (walkEntries ["*.tmp", "logs"] [] sampleTree).files =
      [(["keep.txt"], [4]), (["data", "readme.md"], [3])] ∧
    (walkEntries ["*.tmp", "logs"] [] sampleTree).copied = 2 ∧
    (walkEntries ["*.tmp", "logs"] [] sampleTree).skipped = 1 := by
  refine ⟨?_, walk_files_eq, walk_copied_eq, ?_, ?_,
    by decide, by decide, by decide, by decide, by decide, by decide⟩
  · intro patterns path
    unfold shouldExclude
    by_cases h : path = ""
    · simp [h]
    · simp [h, List.any_eq_true]
  · intro patterns name es rest r h
    simp [walkEntries, h]
  · intro patterns name c rest r h
    simp [walkEntries, h]

/-- Closed witness for C5: excluding the directory `logs` skips its whole
subtree as one item, independently of the subtree's contents. -/
theorem copy_walk_exclusion_witness :
    walkEntries ["*.tmp", "logs"] []
        (Entries.dirEntry "logs"
          (Entries.fileEntry "secret" [9] Entries.nil) Entries.nil) =
      ⟨0, 1, [], []⟩ := by
  have h := copy_walk_exclusion.2.2.2.1 ["*.tmp", "logs"] "logs"
    (Entries.fileEntry "secret" [9] Entries.nil) Entries.nil [] (by decide)
  rw [h]
  rfl

/-! ## Verification theorems (C6)

The copy pass prunes an excluded directory (`dirs[:] = []`), but
`_verify_backup` iterates `for root, _, files in os.walk(source)` and
never modifies the directory list, so it descends below excluded
directories.  A file two levels under an excluded directory, whose own
relative path and immediate parent match no pattern, is therefore
verified against a destination that was deliberately never written, and
counted as a mismatch. -/

/-- C6 evidence: with exclude pattern `logs`, the copy pass of the sample
tree skips the whole `logs` subtree (one skipped item, copying only
`keep.txt` and `data/readme.md`), yet verification descends into
`logs/sub` and flags the never-copied `logs/sub/a.txt` as one missing
mismatch, so the whole run fails; size-mode verification accepts a
same-size different-content pair which hash mode flags; a missing
destination file is one mismatch. -/
theorem verification_descends_excluded_subtree :
    (copyWalk ["logs"] sampleTree).files =
      [(["keep.txt"], [4]), (["data", "readme.md"], [3])] ∧
    (copyWalk ["logs"] sampleTree).skipped = 1 ∧
    pathOk ["logs"] [] ["logs", "sub", "a.txt"] = false ∧
    shouldExclude "logs" ["logs"] = true ∧
    shouldExclude "logs/sub" ["logs"] = false ∧
    shouldExclude "logs/sub/a.txt" ["logs"] = false ∧
    verifyBackup ["logs"] (destOf (copyWalk ["logs"] sampleTree).files)
      "size" sampleTree = 1 ∧
    (run_profile_backup ⟨true, id, sampleTree, []⟩
        ⟨"n", ["src"], ["dst"], ["logs"], "size", 0⟩ "ts").1 =
      ("failed", "Completed with 0 errors and 1 mismatches") ∧
    verifyBackup [] (fun _ => some [1]) "size"
      (Entries.fileEntry "f" [0] Entries.nil) = 0 ∧
    verifyBackup [] (fun _ => some [1]) "hash"
      (Entries.fileEntry "f" [0] Entries.nil) = 1 ∧
    verifyBackup [] (fun _ => none) "size"
      (Entries.fileEntry "f" [0] Entries.nil) = 1 := by
  refine ⟨by decide, by decide, by decide, by decide, by decide, by decide,
    by decide, by decide, by decide, by decide, by decide⟩

/-! ## SSH pre-command theorems (C8) -/

theorem runPreCommands_eq (env : SshEnv) (useSudo : Bool) :
    ∀ commands, runPreCommands env useSudo commands =
      ((wrappedCmds commands useSudo).all (fun c => env.exitStatus c == 0),
       firstFailTrace env (wrappedCmds commands useSudo)) := by
  intro commands
  induction commands with
  | nil => rfl
  | cons item rest ih =>
      by_cases he : (normalizePreCommand item useSudo).1 = ""
      · have hL : runPreCommands env useSudo (item :: rest) =
            runPreCommands env useSudo rest := by
          simp only [runPreCommands]
          rw [if_pos he]
        have hW : wrappedCmds (item :: rest) useSudo =
            wrappedCmds rest useSudo := by
          simp only [wrappedCmds, List.filterMap_cons]
          rw [if_pos he]
        rw [hL, hW, ih]
      · have hW : wrappedCmds (item :: rest) useSudo =
            (if (normalizePreCommand item useSudo).2.1 then
              "sudo -S sh -c \"" ++ (normalizePreCommand item useSudo).1 ++ "\""
            else (normalizePreCommand item useSudo).1) ::
              wrappedCmds rest useSudo := by
          simp only [wrappedCmds, List.filterMap_cons]
          rw [if_neg he]
        by_cases hz : env.exitStatus
            (if (normalizePreCommand item useSudo).2.1 then
              "sudo -S sh -c \"" ++ (normalizePreCommand item useSudo).1 ++ "\""
            else (normalizePreCommand item useSudo).1) = 0
        · have hL : runPreCommands env useSudo (item :: rest) =
              ((runPreCommands env useSudo rest).1,
               (if (normalizePreCommand item useSudo).2.1 then
                 "sudo -S sh -c \"" ++ (normalizePreCommand item useSudo).1 ++
                   "\""
               else (normalizePreCommand item useSudo).1) ::
                 (runPreCommands env useSudo rest).2) := by
            simp only [runPreCommands]
            rw [if_neg he, if_neg (fun hcon => hcon hz)]
          rw [hL, hW, ih]
          simp [firstFailTrace, hz]
        · have hL : runPreCommands env useSudo (item :: rest) =
              (false,
               [if (normalizePreCommand item useSudo).2.1 then
                 "sudo -S sh -c \"" ++ (normalizePreCommand item useSudo).1 ++
                   "\""
               else (normalizePreCommand item useSudo).1]) := by
            simp only [runPreCommands]
            rw [if_neg he, if_pos hz]
          rw [hL, hW]
          simp [firstFailTrace, hz]

/-- C8: pre-commands run sequentially in configured order — the executed
trace is exactly the wrapped nonempty commands up to and including the
first one with nonzero exit status, and the phase succeeds iff all exit
zero; on failure the server's backup returns
"Pre-commands failed for &lt;name&gt;" immediately, with no transfer
attempted; when all exit zero the backup proceeds to the transfer
phase. -/
theorem ssh_pre_commands_abort (env : SshEnv) (server : Server) :
    (∀ commands useSudo, runPreCommands env useSudo commands =
        ((wrappedCmds commands useSudo).all (fun c => env.exitStatus c == 0),
         firstFailTrace env (wrappedCmds commands useSudo))) ∧
    (env.connectOk server.host = true →
      (runPreCommands env (server.preCommandsUseSudo.getD server.useSudo)
          (server.preCommands ++ server.preBackupCommands)).1 = false →
      backupServer env server =
        (("failed", "Pre-commands failed for " ++ serverName server),
         ((runPreCommands env (server.preCommandsUseSudo.getD server.useSudo)
             (server.preCommands ++ server.preBackupCommands)).2).map
           SshEffect.execCmd) ∧
      ∀ p, SshEffect.transfer p ∉ (backupServer env server).2) ∧
    (env.connectOk server.host = true →
      (runPreCommands env (server.preCommandsUseSudo.getD server.useSudo)
          (server.preCommands ++ server.preBackupCommands)).1 = true →
      backupServer env server =
        transferPaths env server.host (serverName server) server.remotePaths
          (((runPreCommands env (server.preCommandsUseSudo.getD server.useSudo)
              (server.preCommands ++ server.preBackupCommands)).2).map
            SshEffect.execCmd)) := by
  refine ⟨fun commands useSudo => runPreCommands_eq env useSudo commands,
    ?_, ?_⟩
  · intro hconn hfail
    have h : backupServer env server =
        (("failed", "Pre-commands failed for " ++ serverName server),
         ((runPreCommands env (server.preCommandsUseSudo.getD server.useSudo)
             (server.preCommands ++ server.preBackupCommands)).2).map
           SshEffect.execCmd) := by
      unfold backupServer
      simp [hconn, hfail]
    refine ⟨h, ?_⟩
    intro p
    rw [h]
    simp
  · intro hconn hok
    unfold backupServer
    simp [hconn, hok]

/-- Closed witness for C8: of three pre-commands the second exits nonzero,
so exactly the first two are executed, the server fails with the
pre-command message, and no transfer happens. -/
theorem ssh_pre_commands_abort_witness :
    backupServer
        ⟨true, fun _ => true, fun c => if c = "bad" then 1 else 0,
         fun _ _ => true⟩
        ⟨some "s1", "h1", true, ["/etc"],
         [PreCmd.simple "ok1", PreCmd.simple "bad", PreCmd.simple "ok2"],
         [], false, none, "", true, []⟩ =
      (("failed", "Pre-commands failed for s1"),
       [SshEffect.execCmd "ok1", SshEffect.execCmd "bad"]) ∧
    SshEffect.transfer "/etc" ∉
      (backupServer
        ⟨true, fun _ => true, fun c => if c = "bad" then 1 else 0,
         fun _ _ => true⟩
        ⟨some "s1", "h1", true, ["/etc"],
         [PreCmd.simple "ok1", PreCmd.simple "bad", PreCmd.simple "ok2"],
         [], false, none, "", true, []⟩).2 := by
  have h := (ssh_pre_commands_abort
    ⟨true, fun _ => true, fun c => if c = "bad" then 1 else 0,
     fun _ _ => true⟩
    ⟨some "s1", "h1", true, ["/etc"],
     [PreCmd.simple "ok1", PreCmd.simple "bad", PreCmd.simple "ok2"],
     [], false, none, "", true, []⟩).2.1 rfl (by decide)
  exact ⟨h.1.trans (by decide), h.2 "/etc"⟩

/-! ## SSH runner theorems (C9) -/

theorem sshRunServers_acc (env : SshEnv) :
    ∀ servers acc, sshRunServers env servers acc =
      ((sshRunServers env servers []).1,
       acc ++ (sshRunServers env servers []).2) := by
  intro servers
  induction servers with
  | nil => intro acc; simp [sshRunServers]
  | cons s rest ih =>
      intro acc
      by_cases he : s.enabled = false
      · simp only [sshRunServers, he, if_true]
        rw [ih acc]
      · simp only [sshRunServers, he, if_false]
        by_cases hr : (backupServer env s).1.1 ≠ "success"
        · simp [hr]
        · simp only [hr, if_false]
          rw [ih (acc ++ (backupServer env s).2),
            ih ([] ++ (backupServer env s).2)]
          simp

theorem sshRunServers_success (env : SshEnv) :
    ∀ servers,
      ((sshRunServers env servers []).1.1 = "success" ↔
        ∀ s ∈ servers, s.enabled = true →
          (backupServer env s).1.1 = "success") ∧
      ((sshRunServers env servers []).1.1 = "success" →
        (sshRunServers env servers []).1 =
          ("success", "SSH backups completed")) := by
  intro servers
  induction servers with
  | nil => exact ⟨by simp [sshRunServers], fun _ => rfl⟩
  | cons s rest ih =>
      by_cases he : s.enabled = false
      · constructor
        · rw [show sshRunServers env (s :: rest) [] =
              sshRunServers env rest [] by simp [sshRunServers, he]]
          rw [ih.1]
          constructor
          · intro h s' hs' hen
            rcases List.mem_cons.mp hs' with h' | h'
            · subst h'; rw [he] at hen; exact absurd hen (by simp)
            · exact h s' h' hen
          · intro h s' hs' hen
            exact h s' (List.mem_cons_of_mem s hs') hen
        · rw [show sshRunServers env (s :: rest) [] =
              sshRunServers env rest [] by simp [sshRunServers, he]]
          exact ih.2
      · have he' : s.enabled = true := by
          cases h : s.enabled
          · exact absurd h he
          · rfl
        by_cases hr : (backupServer env s).1.1 ≠ "success"
        · have hres : sshRunServers env (s :: rest) [] =
              ((backupServer env s).1, [] ++ (backupServer env s).2) := by
            simp [sshRunServers, he, hr]
          constructor
          · rw [hres]
            simp only []
            constructor
            · intro h; exact absurd h hr
            · intro h
              exact absurd (h s (List.mem_cons_self s rest) he') hr
          · intro h
            rw [hres] at h
            exact absurd h hr
        · push_neg at hr
          have hres : sshRunServers env (s :: rest) [] =
              ((sshRunServers env rest []).1,
               ([] ++ (backupServer env s).2) ++
                 (sshRunServers env rest []).2) := by
            simp only [sshRunServers]
            rw [if_neg he,
              if_neg (show ¬((backupServer env s).1.1 ≠ "success") from
                fun hcon => hcon hr)]
            rw [sshRunServers_acc env rest ([] ++ (backupServer env s).2)]
          constructor
          · rw [hres]
            simp only []
            rw [ih.1]
            constructor
            · intro h s' hs' hen
              rcases List.mem_cons.mp hs' with h' | h'
              · subst h'; exact hr
              · exact h s' h' hen
            · intro h s' hs' hen
              exact h s' (List.mem_cons_of_mem s hs') hen
          · intro h
            rw [hres] at h ⊢
            have := ih.2 h
            rw [this]

theorem sshRunServers_short_circuit (env : SshEnv) :
    ∀ l1 s l2,
      (∀ s' ∈ l1, s'.enabled = true → (backupServer env s').1.1 = "success") →
      s.enabled = true → (backupServer env s).1.1 ≠ "success" →
      sshRunServers env (l1 ++ s :: l2) [] =
        ((backupServer env s).1,
         ((l1.map (fun s' => if s'.enabled = true then (backupServer env s').2
             else [])).flatten) ++ (backupServer env s).2) := by
  intro l1
  induction l1 with
  | nil =>
      intro s l2 _ hen hfail
      have hne : s.enabled = false → False := by
        intro h; rw [h] at hen; exact absurd hen (by simp)
      simp only [List.nil_append, sshRunServers]
      rw [if_neg (by intro h; exact hne h), if_pos hfail]
      simp
  | cons s0 l1' ih =>
      intro s l2 hpre hen hfail
      have hrest := ih s l2
        (fun s' hs' => hpre s' (List.mem_cons_of_mem s0 hs')) hen hfail
      by_cases he : s0.enabled = false
      · have hstep : sshRunServers env ((s0 :: l1') ++ s :: l2) [] =
            sshRunServers env (l1' ++ s :: l2) [] := by
          rw [List.cons_append]
          show (if s0.enabled = false then
              sshRunServers env (l1' ++ s :: l2) []
            else
              let r := backupServer env s0
              if r.1.1 ≠ "success" then (r.1, [] ++ r.2)
              else sshRunServers env (l1' ++ s :: l2) ([] ++ r.2)) = _
          rw [if_pos he]
        rw [hstep, hrest]
        simp [he]
      · have he' : s0.enabled = true := by
          cases h : s0.enabled
          · exact absurd h he
          · rfl
        have hs0 : (backupServer env s0).1.1 = "success" :=
          hpre s0 (List.mem_cons_self s0 l1') he'
        have hstep : sshRunServers env ((s0 :: l1') ++ s :: l2) [] =
            sshRunServers env (l1' ++ s :: l2)
              ([] ++ (backupServer env s0).2) := by
          rw [List.cons_append]
          show (if s0.enabled = false then
              sshRunServers env (l1' ++ s :: l2) []
            else
              let r := backupServer env s0
              if r.1.1 ≠ "success" then (r.1, [] ++ r.2)
              else sshRunServers env (l1' ++ s :: l2) ([] ++ r.2)) = _
          rw [if_neg he]
          show (if (backupServer env s0).1.1 ≠ "success" then _ else _) = _
          rw [if_neg (fun hcon => hcon hs0)]
        rw [hstep, sshRunServers_acc env (l1' ++ s :: l2)
          ([] ++ (backupServer env s0).2), hrest]
        simp [he', List.append_assoc]

/-- C9 counterexample: with an empty server list (paramiko present), every
enabled server's backup vacuously returns "success", yet the task returns
("failed", "No SSH servers configured") — the claimed iff fails. -/
theorem ssh_run_empty_servers :
    (sshRun ⟨true, fun _ => true, fun _ => 0, fun _ _ => true⟩
        ⟨[], "/backups", []⟩).1 = ("failed", "No SSH servers configured") ∧
    (SshConfig.servers ⟨[], "/backups", []⟩).all
      (fun s =>
        !s.enabled ||
          ((backupServer ⟨true, fun _ => true, fun _ => 0, fun _ _ => true⟩
              s).1.1 == "success")) = true := by
  exact ⟨by decide, rfl⟩

/-- The `if not str(local_base)` branch of `SSHBackupRunner.run` is dead:
`str(Path(s))` is never the empty string (`str(Path(""))` is `"."`). -/
theorem strOfPath_ne_empty (s : String) : strOfPath s ≠ "" := by
  unfold strOfPath
  by_cases h : s = "" <;> simp [h]

/-- C9 amended: given at least one configured server and paramiko
available, the SSH task returns "success" iff every enabled server's
backup returns "success" (disabled servers are skipped); the first
enabled server whose backup fails determines the task's
(status, message), and no later server contributes anything — the result
and effect trace are those of the enabled successes before it plus the
failing server's own.  No hypothesis on `local_backup_dir` is needed:
its emptiness check in the source is dead code. -/
theorem ssh_run_success_iff (env : SshEnv) (cfg : SshConfig)
    (hp : env.paramikoOk = true) (hs : cfg.servers ≠ []) :
    ((sshRun env cfg).1.1 = "success" ↔
      ∀ s ∈ cfg.servers, s.enabled = true →
        (backupServer env s).1.1 = "success") ∧
    ((sshRun env cfg).1.1 = "success" →
      (sshRun env cfg).1 = ("success", "SSH backups completed")) ∧
    (∀ l1 s l2, cfg.servers = l1 ++ s :: l2 →
      (∀ s' ∈ l1, s'.enabled = true → (backupServer env s').1.1 = "success") →
      s.enabled = true → (backupServer env s).1.1 ≠ "success" →
      sshRun env cfg =
        ((backupServer env s).1,
         ((l1.map (fun s' => if s'.enabled = true then (backupServer env s').2
             else [])).flatten) ++ (backupServer env s).2)) := by
  have hrun : sshRun env cfg = sshRunServers env cfg.servers [] := by
    unfold sshRun
    rw [if_neg (by simp [hp]), if_neg (by simp [List.isEmpty_iff, hs]),
      if_neg (strOfPath_ne_empty cfg.localBackupDir)]
  refine ⟨?_, ?_, ?_⟩
  · rw [hrun]; exact (sshRunServers_success env cfg.servers).1
  · rw [hrun]; exact (sshRunServers_success env cfg.servers).2
  · intro l1 s l2 hsplit hpre hen hfail
    rw [hrun, hsplit]
    exact sshRunServers_short_circuit env l1 s l2 hpre hen hfail

/-- Closed witness for C9: three servers — an enabled success, an enabled
failure, a server after it — yield the failing server's message and no
effect from the third server; the config's `local_backup_dir` is empty,
and the run proceeds regardless (the emptiness check is dead code). -/
theorem ssh_run_success_iff_witness :
    sshRun
        ⟨true, fun _ => true, fun _ => 0, fun h _ => h ≠ "h2"⟩
        ⟨[⟨some "a", "h1", true, ["/p1"], [], [], false, none, "", true, []⟩,
          ⟨some "b", "h2", true, ["/p2"], [], [], false, none, "", true, []⟩,
          ⟨some "c", "h3", true, ["/p3"], [], [], false, none, "", true, []⟩],
         "", []⟩ =
      (("failed", "Failed to backup /p2"),
       [SshEffect.transfer "/p1", SshEffect.transfer "/p2"]) := by
  have h := (ssh_run_success_iff
    ⟨true, fun _ => true, fun _ => 0, fun h _ => h ≠ "h2"⟩
    ⟨[⟨some "a", "h1", true, ["/p1"], [], [], false, none, "", true, []⟩,
      ⟨some "b", "h2", true, ["/p2"], [], [], false, none, "", true, []⟩,
      ⟨some "c", "h3", true, ["/p3"], [], [], false, none, "", true, []⟩],
     "", []⟩ rfl (by simp)).2.2
    [⟨some "a", "h1", true, ["/p1"], [], [], false, none, "", true, []⟩]
    ⟨some "b", "h2", true, ["/p2"], [], [], false, none, "", true, []⟩
    [⟨some "c", "h3", true, ["/p3"], [], [], false, none, "", true, []⟩]
    rfl (by decide) rfl (by decide)
  exact h.trans (by decide)

end YATB
